import Mathlib

/-!
Shallow embedding of the rbx_xml XML serializer core of the rbx-dom
repository: the reflection-driven property resolver
(`src/rbx_xml/src/core.rs`, `find_property_descriptors`) and the tree
serializer (`src/rbx_xml/src/serializer.rs`, `encode_internal`,
`serialize_instance`, `serialize_shared_strings`, `EmitState`).

Machinery the serializer consumes from sibling crates of the repository
that are not under `src/` (`rbx_reflection`'s database access,
`rbx_dom_weak`'s `RbxTree`, `RbxValue`, `try_convert_ref`,
`SharedString`, and the per-type value writers behind
`types::write_value_xml`) is modelled from the spec; each such
definition carries a doc comment saying so.

Rust `HashMap`s are modelled as association lists with unique keys.
The one place where hash-map *iteration order* is observable —
`serialize_shared_strings` iterating `shared_strings_to_emit.values()` —
is modelled by an explicit iteration-order oracle `iterOrder`, which
may be any function; a faithful oracle permutes its input.  Unbounded
recursion (the resolver loop and the child traversal) is fuel-indexed;
Rust panics (`unwrap`, `expect`, `unreachable!`) become an explicit
`panic` outcome.  The `EmitState` carries two ghost logs (`ref_log`,
`shared_log`) recording the chronological arguments of `map_id` and
`add_shared_string`; they influence nothing else and exist only so that
theorems can speak about "first-encounter order during the walk".
-/

/-- Node identity inside one tree (`RbxId` in rbx_dom_weak). -/
abbrev RbxId := Nat

abbrev PropName := String

abbrev ClassName := String

/-- Tags of the value union (`RbxValueType` in rbx_dom_weak), restricted to a
representative closed set of implemented types. -/
inductive RbxValueType where
  | string
  | bool
  | int32
  | int64
  | enum
  | ref
  | sharedString
  deriving DecidableEq

/-- The tagged value union (`RbxValue` in rbx_dom_weak).  Shared-string
values carry their raw byte content. -/
inductive RbxValue where
  | string (s : String)
  | bool (b : Bool)
  | int32 (n : Int)
  | int64 (n : Int)
  | enum (n : Nat)
  | ref (target : Option RbxId)
  | sharedString (data : List Nat)
  deriving DecidableEq

/-- `RbxValue::get_type`. -/
def RbxValue.get_type : RbxValue → RbxValueType
  | .string _ => .string
  | .bool _ => .bool
  | .int32 _ => .int32
  | .int64 _ => .int64
  | .enum _ => .enum
  | .ref _ => .ref
  | .sharedString _ => .sharedString

/-- Modelled from the spec: the content digest of a shared-string blob
(`SharedString::md5_hash` in rbx_dom_weak), "used both as dedup key and as
wire identifier".  The digest is modelled as the content itself, i.e. a
collision-free digest function. -/
def md5_hash (data : List Nat) : List Nat := data

/-- `RbxPropertyTypeDescriptor` from rbx_reflection: a data type, an enum,
or a type the codec has not implemented. -/
inductive RbxPropertyTypeDescriptor where
  | Data (t : RbxValueType)
  | Enum (enum_name : String)
  | UnimplementedType (name : String)
  deriving DecidableEq

/-- `RbxPropertyDescriptor` from rbx_reflection, at the interface consumed
by `core.rs`: name, property type, `is_canonical()`, `canonical_name()`,
`serialized_name()`. -/
structure RbxPropertyDescriptor where
  name : PropName
  property_type : RbxPropertyTypeDescriptor
  is_canonical : Bool
  canonical_name : Option PropName
  serialized_name : Option PropName
  deriving DecidableEq

/-- `RbxClassDescriptor` at the interface consumed by `core.rs`: a name, an
optional superclass name and a set of property descriptors indexed by
name. -/
structure RbxClassDescriptor where
  name : ClassName
  superclass : Option ClassName
  properties : List RbxPropertyDescriptor
  deriving DecidableEq

/-- Property lookup on one class (`RbxClassDescriptor::get_property_descriptor`). -/
def RbxClassDescriptor.get_property_descriptor (cd : RbxClassDescriptor)
    (property_name : PropName) : Option RbxPropertyDescriptor :=
  cd.properties.find? (fun p => p.name = property_name)

/-- Modelled from the spec: the read-only reflection database, "a flat table
keyed by class name plus explicit superclass-name traversal". -/
structure ReflectionDatabase where
  classes : List RbxClassDescriptor
  deriving DecidableEq

/-- `rbx_reflection::get_class_descriptor`. -/
def ReflectionDatabase.get_class_descriptor (db : ReflectionDatabase)
    (class_name : ClassName) : Option RbxClassDescriptor :=
  db.classes.find? (fun cd => cd.name = class_name)

/-- Outcome of the resolver loop in `core.rs`.  `notFound` is Rust's
`None`; `panicked` models the `unwrap`/`expect` calls on an internally
inconsistent database; `outOfFuel` means the Rust loop would still be
iterating after the given number of superclass steps. -/
inductive Resolved where
  | found (canonical serialized : RbxPropertyDescriptor)
  | notFound
  | panicked
  | outOfFuel
  deriving DecidableEq

/-- The body of the `loop` in `find_property_descriptors`
(`core.rs` lines 57-105), fuel-indexed: one unit of fuel per class
examined along the superclass chain. -/
def resolve_loop (db : ReflectionDatabase) (property_name : PropName) :
    Nat → RbxClassDescriptor → Resolved
  | 0, _ => .outOfFuel
  | fuel + 1, current_class_descriptor =>
    match current_class_descriptor.get_property_descriptor property_name with
    | some property_descriptor =>
      if property_descriptor.is_canonical then
        match property_descriptor.serialized_name with
        | some sname =>
          match current_class_descriptor.get_property_descriptor sname with
          | some serialized_descriptor => .found property_descriptor serialized_descriptor
          | none => .panicked
        | none => .found property_descriptor property_descriptor
      else
        match property_descriptor.canonical_name with
        | some canonical_name =>
          match current_class_descriptor.get_property_descriptor canonical_name with
          | some canonical_descriptor =>
            match canonical_descriptor.serialized_name with
            | some sname =>
              match current_class_descriptor.get_property_descriptor sname with
              | some serialized_descriptor => .found canonical_descriptor serialized_descriptor
              | none => .panicked
            | none => .found canonical_descriptor canonical_descriptor
          | none => .panicked
        | none => .notFound
    | none =>
      match current_class_descriptor.superclass with
      | some superclass_name =>
        match db.get_class_descriptor superclass_name with
        | some next => resolve_loop db property_name fuel next
        | none => .panicked
      | none => .notFound

/-- `find_property_descriptors` (`core.rs` lines 44-106). -/
def find_property_descriptors (db : ReflectionDatabase) (fuel : Nat)
    (class_name : ClassName) (property_name : PropName) : Resolved :=
  match db.get_class_descriptor class_name with
  | none => .notFound
  | some class_descriptor => resolve_loop db property_name fuel class_descriptor

/-- `EncodePropertyBehavior` (`serializer.rs` lines 45-73). -/
inductive EncodePropertyBehavior where
  | IgnoreUnknown
  | WriteUnknown
  | ErrorOnUnknown
  | NoReflection
  | Nonexhaustive
  deriving DecidableEq

/-- `EncodeOptions` (`serializer.rs` lines 77-79). -/
structure EncodeOptions where
  property_behavior : EncodePropertyBehavior
  deriving DecidableEq

/-- `EncodeOptions::new`. -/
def EncodeOptions.new : EncodeOptions :=
  { property_behavior := .IgnoreUnknown }

/-- `EncodeOptions::use_reflection`. -/
def EncodeOptions.use_reflection (o : EncodeOptions) : Bool :=
  o.property_behavior != .NoReflection

/-- `EncodeErrorKind`, restricted to the variants the serializer itself
produces. -/
inductive EncodeErrorKind where
  | UnknownProperty (class_name : ClassName) (property_name : PropName)
  | UnsupportedPropertyConversion (class_name : ClassName) (property_name : PropName)
      (expected_type : RbxValueType) (actual_type : RbxValueType)
  deriving DecidableEq

/-- Outcome of a serializer step: success, a structured `EncodeError`, a
Rust panic, or fuel exhaustion of the fuel-indexed recursion. -/
inductive EncResult (α : Type) where
  | ok (a : α)
  | err (e : EncodeErrorKind)
  | panicked
  | outOfFuel
  deriving DecidableEq

/-- Association-list lookup for the referent map. -/
def lookupId : List (RbxId × Nat) → RbxId → Option Nat
  | [], _ => none
  | p :: rest, i => if p.1 = i then some p.2 else lookupId rest i

/-- Insert into the shared-string map with `HashMap::insert` semantics:
replace the entry with an equal key, else add a new entry. -/
def insertShared : List (List Nat × List Nat) → List Nat → List Nat →
    List (List Nat × List Nat)
  | [], k, v => [(k, v)]
  | p :: rest, k, v => if p.1 = k then (k, v) :: rest else p :: insertShared rest k v

/-- `EmitState` (`serializer.rs` lines 111-124).  `referent_map` and
`shared_strings_to_emit` are Rust `HashMap`s, modelled as association
lists with unique keys.  `ref_log` and `shared_log` are ghost logs of the
chronological arguments to `map_id` and `add_shared_string`: they are
never read by the serializer and only support specification. -/
structure EmitState where
  options : EncodeOptions
  referent_map : List (RbxId × Nat)
  next_referent : Nat
  shared_strings_to_emit : List (List Nat × List Nat)
  ref_log : List RbxId
  shared_log : List (List Nat)
  deriving DecidableEq

/-- `EmitState::new`. -/
def EmitState.new (options : EncodeOptions) : EmitState :=
  { options := options
    referent_map := []
    next_referent := 0
    shared_strings_to_emit := []
    ref_log := []
    shared_log := [] }

/-- `EmitState::map_id` (`serializer.rs` lines 136-146): return the
already-assigned referent of `i`, or assign `next_referent` to it. -/
def EmitState.map_id (s : EmitState) (i : RbxId) : Nat × EmitState :=
  match lookupId s.referent_map i with
  | some value => (value, { s with ref_log := s.ref_log ++ [i] })
  | none =>
    let referent := s.next_referent
    (referent,
      { s with
        referent_map := s.referent_map ++ [(i, referent)]
        next_referent := s.next_referent + 1
        ref_log := s.ref_log ++ [i] })

/-- `EmitState::add_shared_string` (`serializer.rs` lines 148-151). -/
def EmitState.add_shared_string (s : EmitState) (value : List Nat) : EmitState :=
  { s with
    shared_strings_to_emit := insertShared s.shared_strings_to_emit (md5_hash value) value
    shared_log := s.shared_log ++ [value] }

/-- Modelled from the spec: the wire tag registered for each value type by
the ValueCodecRegistry ("a stable wire tag name" per supported type). -/
def wireTag : RbxValueType → String
  | .string => "string"
  | .bool => "bool"
  | .int32 => "int"
  | .int64 => "int64"
  | .enum => "token"
  | .ref => "Ref"
  | .sharedString => "SharedString"

/-- One event of the structured-text output stream, modelling what
`XmlEventWriter` receives.  Typed property payloads are kept abstract:
`propValue` stands for the element the registered writer of the value's
wire tag produces, `propRef` for a reference property carrying the
target's referent (or the null marker), `propShared` for a shared-string
property carrying the blob's content hash, and `sharedStringEntry` for
one dictionary entry (hash attribute plus text-safe payload). -/
inductive XmlEvent where
  | startElement (tag : String) (attrs : List (String × String))
  | endElement
  | propValue (tag : String) (name : String) (value : RbxValue)
  | propRef (name : String) (referent : Option Nat)
  | propShared (name : String) (md5 : List Nat)
  | sharedStringEntry (md5 : List Nat) (data : List Nat)
  deriving DecidableEq

/-- Modelled from the spec: `RbxValueConversion` of rbx_dom_weak. -/
inductive RbxValueConversion where
  | converted (v : RbxValue)
  | unnecessary
  | failed
  deriving DecidableEq

/-- Modelled from the spec: `RbxValue::try_convert_ref` of rbx_dom_weak —
"exact type match → use value as-is; convertible → produce a converted
copy; inconvertible → fail", with the explicit conversion table between
variants restricted to a representative numeric widening pair. -/
def try_convert_ref (v : RbxValue) (target : RbxValueType) : RbxValueConversion :=
  if v.get_type = target then .unnecessary
  else
    match v, target with
    | .int32 n, .int64 => .converted (.int64 n)
    | .int64 n, .int32 => .converted (.int32 n)
    | _, _ => .failed

/-- Modelled from the spec: `types::write_value_xml`, the
ValueCodecRegistry write dispatch.  It emits the element of the wire tag
registered for the value's type under the given property name; the
reference writer maps the target id through `EmitState::map_id` and the
shared-string writer registers the blob via
`EmitState::add_shared_string` (these two writers receive the emit
state). -/
def write_value_xml (state : EmitState) (name : String) (value : RbxValue) :
    List XmlEvent × EmitState :=
  match value with
  | .ref (some target) =>
    let pair := state.map_id target
    ([XmlEvent.propRef name (some pair.1)], pair.2)
  | .ref none => ([XmlEvent.propRef name none], state)
  | .sharedString data =>
    ([XmlEvent.propShared name (md5_hash data)], state.add_shared_string data)
  | v => ([XmlEvent.propValue (wireTag v.get_type) name v], state)

/-- An instance node of `RbxTree` (rbx_dom_weak), at the interface the
serializer consumes: class name, name, property map (association list
with unique keys; storage order is the hash map's arbitrary iteration
order) and ordered child ids. -/
structure RbxInstance where
  class_name : ClassName
  name : String
  properties : List (PropName × RbxValue)
  children : List RbxId
  deriving DecidableEq

/-- Modelled from the spec: `RbxTree` of rbx_dom_weak — instances keyed
by id. -/
structure RbxTree where
  instances : List (RbxId × RbxInstance)
  deriving DecidableEq

/-- `RbxTree::get_instance`. -/
def RbxTree.get_instance (t : RbxTree) (i : RbxId) : Option RbxInstance :=
  (t.instances.find? (fun p => p.1 = i)).map (fun p => p.2)

/-- The character-code sequence of a property name: the sort key of the
Rust `sort_unstable_by_key`, whose `String` order is byte-lexicographic.
Compared through the lexicographic order on `List Nat`. -/
def nameKey (s : String) : List Nat := s.data.map Char.toNat

/-- Key-ordered insertion used by `sortProps`. -/
def insertSorted (p : PropName × RbxValue) :
    List (PropName × RbxValue) → List (PropName × RbxValue)
  | [] => [p]
  | q :: rest =>
    if nameKey p.1 ≤ nameKey q.1 then p :: q :: rest else q :: insertSorted p rest

/-- The property sort of `serialize_instance` (`serializer.rs` line 180,
`sort_unstable_by_key` on the property name): insertion sort by stored
name. -/
def sortProps : List (PropName × RbxValue) → List (PropName × RbxValue)
  | [] => []
  | p :: rest => insertSorted p (sortProps rest)

/-- The per-property body of the loop in `serialize_instance`
(`serializer.rs` lines 182-248). -/
def serialize_property (db : ReflectionDatabase) (rfuel : Nat) (state : EmitState)
    (class_name : ClassName) (property_name : PropName) (value : RbxValue) :
    EncResult (List XmlEvent × EmitState) :=
  let afterResolve : Option RbxPropertyDescriptor → EncResult (List XmlEvent × EmitState) :=
    fun maybe_serialized_descriptor =>
      match maybe_serialized_descriptor with
      | some serialized_descriptor =>
        let writeAs : RbxValueType → EncResult (List XmlEvent × EmitState) :=
          fun value_type =>
            match try_convert_ref value value_type with
            | .converted converted => .ok (write_value_xml state serialized_descriptor.name converted)
            | .unnecessary => .ok (write_value_xml state serialized_descriptor.name value)
            | .failed =>
              .err (.UnsupportedPropertyConversion class_name property_name
                value_type value.get_type)
        match serialized_descriptor.property_type with
        | .Data value_type => writeAs value_type
        | .Enum _ => writeAs .enum
        | .UnimplementedType _ =>
          match state.options.property_behavior with
          | .IgnoreUnknown => .ok ([], state)
          | .WriteUnknown => writeAs value.get_type
          | .ErrorOnUnknown => .err (.UnknownProperty class_name property_name)
          | .NoReflection => .panicked
          | .Nonexhaustive => .panicked
      | none =>
        match state.options.property_behavior with
        | .IgnoreUnknown => .ok ([], state)
        | .WriteUnknown => .ok (write_value_xml state property_name value)
        | .NoReflection => .ok (write_value_xml state property_name value)
        | .ErrorOnUnknown => .err (.UnknownProperty class_name property_name)
        | .Nonexhaustive => .panicked
  if state.options.use_reflection then
    match find_property_descriptors db rfuel class_name property_name with
    | .found _canonical serialized => afterResolve (some serialized)
    | .notFound => afterResolve none
    | .panicked => .panicked
    | .outOfFuel => .outOfFuel
  else
    afterResolve none

/-- The property loop of `serialize_instance` over the sorted buffer. -/
def serialize_properties (db : ReflectionDatabase) (rfuel : Nat)
    (class_name : ClassName) :
    EmitState → List (PropName × RbxValue) → EncResult (List XmlEvent × EmitState)
  | state, [] => .ok ([], state)
  | state, (property_name, value) :: rest =>
    match serialize_property db rfuel state class_name property_name value with
    | .ok (ev, s2) =>
      match serialize_properties db rfuel class_name s2 rest with
      | .ok (ev2, s3) => .ok (ev ++ ev2, s3)
      | .err e => .err e
      | .panicked => .panicked
      | .outOfFuel => .outOfFuel
    | .err e => .err e
    | .panicked => .panicked
    | .outOfFuel => .outOfFuel

/-- The loop `for id in ids { serialize_instance(...) }`, used both for the
root list in `encode_internal` and for the child list in
`serialize_instance`; the per-instance serializer is passed in. -/
def serialize_children (f : EmitState → RbxId → EncResult (List XmlEvent × EmitState)) :
    EmitState → List RbxId → EncResult (List XmlEvent × EmitState)
  | state, [] => .ok ([], state)
  | state, i :: rest =>
    match f state i with
    | .ok (ev, s2) =>
      match serialize_children f s2 rest with
      | .ok (ev2, s3) => .ok (ev ++ ev2, s3)
      | .err e => .err e
      | .panicked => .panicked
      | .outOfFuel => .outOfFuel
    | .err e => .err e
    | .panicked => .panicked
    | .outOfFuel => .outOfFuel

/-- `serialize_instance` (`serializer.rs` lines 157-260), fuel-indexed on
recursion depth.  The unwrapped `tree.get_instance(id).unwrap()` is the
`panicked` outcome on an absent id.  The reused `property_buffer` is a
performance device: extending the drained buffer and sorting it equals
sorting the property list. -/
def serialize_instance (db : ReflectionDatabase) (rfuel : Nat) (tree : RbxTree) :
    Nat → EmitState → RbxId → EncResult (List XmlEvent × EmitState)
  | 0, _, _ => .outOfFuel
  | fuel + 1, state, i =>
    match tree.get_instance i with
    | none => .panicked
    | some inst =>
      let pair := state.map_id i
      let namePair := write_value_xml pair.2 "Name" (.string inst.name)
      match serialize_properties db rfuel inst.class_name namePair.2
          (sortProps inst.properties) with
      | .ok (evProps, s2) =>
        match serialize_children
            (fun s j => serialize_instance db rfuel tree fuel s j) s2 inst.children with
        | .ok (evChildren, s3) =>
          .ok ([XmlEvent.startElement "Item"
                  [("class", inst.class_name), ("referent", toString pair.1)],
                XmlEvent.startElement "Properties" []] ++
               namePair.1 ++ evProps ++ [XmlEvent.endElement] ++ evChildren ++
               [XmlEvent.endElement], s3)
        | .err e => .err e
        | .panicked => .panicked
        | .outOfFuel => .outOfFuel
      | .err e => .err e
      | .panicked => .panicked
      | .outOfFuel => .outOfFuel

/-- `serialize_shared_strings` (`serializer.rs` lines 262-282).  The Rust
code iterates `shared_strings_to_emit.values()` of a `HashMap`, whose
order is unspecified: `iterOrder` is the iteration-order oracle. -/
def serialize_shared_strings
    (iterOrder : List (List Nat × List Nat) → List (List Nat × List Nat))
    (state : EmitState) : List XmlEvent × EmitState :=
  match state.shared_strings_to_emit with
  | [] => ([], state)
  | _ :: _ =>
    ([XmlEvent.startElement "SharedStrings" []] ++
     (iterOrder state.shared_strings_to_emit).map
       (fun p => XmlEvent.sharedStringEntry p.1 p.2) ++
     [XmlEvent.endElement], state)

/-- `encode_internal` (`serializer.rs` lines 25-41).  Returns the full
event stream together with the final emit state (the Rust code drops the
state; it is returned here for specification). -/
def encode_internal (db : ReflectionDatabase) (rfuel : Nat)
    (iterOrder : List (List Nat × List Nat) → List (List Nat × List Nat))
    (tree : RbxTree) (ids : List RbxId) (options : EncodeOptions) (fuel : Nat) :
    EncResult (List XmlEvent × EmitState) :=
  let state := EmitState.new options
  match serialize_children
      (fun s j => serialize_instance db rfuel tree fuel s j) state ids with
  | .ok (evRoots, s1) =>
    let shared := serialize_shared_strings iterOrder s1
    .ok ([XmlEvent.startElement "roblox" [("version", "4")]] ++ evRoots ++
         shared.1 ++ [XmlEvent.endElement], shared.2)
  | .err e => .err e
  | .panicked => .panicked
  | .outOfFuel => .outOfFuel

/-! ## Example inputs used by counterexamples and witnesses -/

/-- A property descriptor with no canonical form: not canonical and with no
`canonical_name` — the "intentionally unrepresentable" case. -/
def exUnrepDesc : RbxPropertyDescriptor :=
  { name := "P", property_type := .Data .string, is_canonical := false,
    canonical_name := none, serialized_name := none }

/-- A one-class database whose class `C` declares only the intentionally
unrepresentable property `P`. -/
def exUnrepDb : ReflectionDatabase :=
  { classes := [{ name := "C", superclass := none, properties := [exUnrepDesc] }] }

/-- Fresh emit state under `ErrorOnUnknown`. -/
def exStateError : EmitState := EmitState.new { property_behavior := .ErrorOnUnknown }

/-- Fresh emit state under `WriteUnknown`. -/
def exStateWrite : EmitState := EmitState.new { property_behavior := .WriteUnknown }

/-- Claim C2 is false on the code: a stored property whose descriptor is
found on the class but has no canonical form (is_canonical = false,
canonical_name = none) is *not* skipped in every mode.  The resolver
collapses it into "not resolved" (`Resolved.notFound`), after which the
serializer fails with `UnknownProperty` under `ErrorOnUnknown` and writes
the property verbatim under `WriteUnknown` — exactly what the claim says
must never happen. -/
theorem c2_unrepresentable_treated_as_unknown :
    exUnrepDesc.is_canonical = false ∧ exUnrepDesc.canonical_name = none
    ∧ find_property_descriptors exUnrepDb 1 "C" "P" = .notFound
    ∧ serialize_property exUnrepDb 1 exStateError "C" "P" (.string "x") =
        .err (.UnknownProperty "C" "P")
    ∧ serialize_property exUnrepDb 1 exStateWrite "C" "P" (.string "x") =
        .ok ([XmlEvent.propValue "string" "P" (.string "x")], exStateWrite) := by
  refine ⟨rfl, rfl, ?_, ?_, ?_⟩ <;> decide

/-- Claim C3: a stored property that resolves to no serialized descriptor
is skipped under `IgnoreUnknown`, written verbatim (stored name, stored
type, stored value, no conversion) under `WriteUnknown` and under
`NoReflection`, and fails with `UnknownProperty` carrying the class and
property names under `ErrorOnUnknown`. -/
theorem c3_unresolved_property_matrix
    (db : ReflectionDatabase) (rfuel : Nat) (state : EmitState)
    (class_name : ClassName) (property_name : PropName) (value : RbxValue)
    (hres : find_property_descriptors db rfuel class_name property_name = .notFound) :
    (state.options.property_behavior = .IgnoreUnknown →
      serialize_property db rfuel state class_name property_name value = .ok ([], state))
    ∧ ((state.options.property_behavior = .WriteUnknown ∨
        state.options.property_behavior = .NoReflection) →
      serialize_property db rfuel state class_name property_name value =
        .ok (write_value_xml state property_name value))
    ∧ (state.options.property_behavior = .ErrorOnUnknown →
      serialize_property db rfuel state class_name property_name value =
        .err (.UnknownProperty class_name property_name)) := by
  refine ⟨?_, ?_, ?_⟩
  · intro hb
    simp [serialize_property, EncodeOptions.use_reflection, hb, hres]
  · rintro (hb | hb) <;>
      simp [serialize_property, EncodeOptions.use_reflection, hb, hres]
  · intro hb
    simp [serialize_property, EncodeOptions.use_reflection, hb, hres]

/-- Witness for C3 at a concrete input: class `C` of the example database
does not declare `Q` anywhere on its hierarchy. -/
theorem c3_witness :
    find_property_descriptors exUnrepDb 1 "C" "Q" = .notFound
    ∧ ((exStateError.options.property_behavior = .IgnoreUnknown →
        serialize_property exUnrepDb 1 exStateError "C" "Q" (.string "x") =
          .ok ([], exStateError))
      ∧ ((exStateError.options.property_behavior = .WriteUnknown ∨
          exStateError.options.property_behavior = .NoReflection) →
        serialize_property exUnrepDb 1 exStateError "C" "Q" (.string "x") =
          .ok (write_value_xml exStateError "Q" (.string "x")))
      ∧ (exStateError.options.property_behavior = .ErrorOnUnknown →
        serialize_property exUnrepDb 1 exStateError "C" "Q" (.string "x") =
          .err (.UnknownProperty "C" "Q"))) :=
  ⟨by decide, c3_unresolved_property_matrix exUnrepDb 1 exStateError "C" "Q"
      (.string "x") (by decide)⟩

/-- Claim C8: when a stored property resolves to a serialized descriptor
whose value type is implemented (a data type, or an enum — which targets
the enum value type), the encoder writes the stored value as-is when the
conversion is unnecessary (exact type match), writes the converted copy
when the value converts, and otherwise fails with
`UnsupportedPropertyConversion` carrying class, property, expected type
and actual type. -/
theorem c8_conversion_dispatch
    (db : ReflectionDatabase) (rfuel : Nat) (state : EmitState)
    (class_name : ClassName) (property_name : PropName) (value : RbxValue)
    (canonical serialized : RbxPropertyDescriptor) (t : RbxValueType)
    (hres : find_property_descriptors db rfuel class_name property_name =
      .found canonical serialized)
    (huse : state.options.use_reflection = true)
    (ht : serialized.property_type = .Data t ∨
      ∃ en, serialized.property_type = .Enum en ∧ t = .enum) :
    (try_convert_ref value t = .unnecessary →
      serialize_property db rfuel state class_name property_name value =
        .ok (write_value_xml state serialized.name value))
    ∧ (∀ cv, try_convert_ref value t = .converted cv →
      serialize_property db rfuel state class_name property_name value =
        .ok (write_value_xml state serialized.name cv))
    ∧ (try_convert_ref value t = .failed →
      serialize_property db rfuel state class_name property_name value =
        .err (.UnsupportedPropertyConversion class_name property_name t
          value.get_type)) := by
  refine ⟨?_, ?_, ?_⟩
  · intro h
    rcases ht with ht | ⟨en, ht, rfl⟩ <;>
      simp [serialize_property, huse, hres, ht, h]
  · intro cv h
    rcases ht with ht | ⟨en, ht, rfl⟩ <;>
      simp [serialize_property, huse, hres, ht, h]
  · intro h
    rcases ht with ht | ⟨en, ht, rfl⟩ <;>
      simp [serialize_property, huse, hres, ht, h]

/-- A canonical `int32` property on class `C`: resolves to itself. -/
def exIntDesc : RbxPropertyDescriptor :=
  { name := "Size", property_type := .Data .int32, is_canonical := true,
    canonical_name := none, serialized_name := none }

/-- Database for the conversion witness. -/
def exIntDb : ReflectionDatabase :=
  { classes := [{ name := "C", superclass := none, properties := [exIntDesc] }] }

/-- Fresh emit state under the default `IgnoreUnknown` behavior. -/
def exStateIgnore : EmitState := EmitState.new EncodeOptions.new

/-- Witness for C8 at a concrete input: an `int32` value stored for an
`int32`-typed property is used as-is. -/
theorem c8_witness :
    find_property_descriptors exIntDb 1 "C" "Size" = .found exIntDesc exIntDesc
    ∧ exStateIgnore.options.use_reflection = true
    ∧ exIntDesc.property_type = .Data .int32
    ∧ (try_convert_ref (.int32 5) .int32 = .unnecessary →
      serialize_property exIntDb 1 exStateIgnore "C" "Size" (.int32 5) =
        .ok (write_value_xml exStateIgnore exIntDesc.name (.int32 5))) :=
  ⟨by decide, by decide, rfl,
    (c8_conversion_dispatch exIntDb 1 exStateIgnore "C" "Size" (.int32 5)
      exIntDesc exIntDesc .int32 (by decide) (by decide) (Or.inl rfl)).1⟩

/-- Claim C10: the per-instance lookup `tree.get_instance(id).unwrap()` is
unwrapped, so serializing an id absent from the tree panics — and an
encode call whose root list reaches an absent id panics rather than
returning an `EncodeError` (or succeeding). -/
theorem c10_absent_id_panics
    (db : ReflectionDatabase) (rfuel : Nat)
    (iterOrder : List (List Nat × List Nat) → List (List Nat × List Nat))
    (tree : RbxTree) (options : EncodeOptions) (fuel : Nat) (state : EmitState)
    (i : RbxId) (rest : List RbxId)
    (hmiss : tree.get_instance i = none) :
    serialize_instance db rfuel tree (fuel + 1) state i = .panicked
    ∧ encode_internal db rfuel iterOrder tree (i :: rest) options (fuel + 1) = .panicked
    ∧ (∀ e, encode_internal db rfuel iterOrder tree (i :: rest) options (fuel + 1) ≠
        .err e)
    ∧ (∀ out, encode_internal db rfuel iterOrder tree (i :: rest) options (fuel + 1) ≠
        .ok out) := by
  have h1 : serialize_instance db rfuel tree (fuel + 1) state i = .panicked := by
    simp [serialize_instance, hmiss]
  have h2 : encode_internal db rfuel iterOrder tree (i :: rest) options (fuel + 1) =
      .panicked := by
    simp [encode_internal, serialize_children, serialize_instance, hmiss]
  exact ⟨h1, h2, fun e => by simp [h2], fun out => by simp [h2]⟩

/-- A tree holding only instance 7. -/
def exTreeOnly7 : RbxTree :=
  { instances := [(7, { class_name := "Folder", name := "F",
                        properties := [], children := [] })] }

/-- Witness for C10 at a concrete input: id 3 is absent from the tree, so
both the instance serializer and the whole encode call panic. -/
theorem c10_witness :
    exTreeOnly7.get_instance 3 = none
    ∧ serialize_instance exUnrepDb 1 exTreeOnly7 1 exStateIgnore 3 = .panicked
    ∧ encode_internal exUnrepDb 1 (fun l => l) exTreeOnly7 [3] EncodeOptions.new 1 =
        .panicked := by
  have h := c10_absent_id_panics exUnrepDb 1 (fun l => l) exTreeOnly7
    EncodeOptions.new 0 exStateIgnore 3 [] (by decide)
  exact ⟨by decide, h.1, h.2.1⟩

/-! ## Resolver characterization (C4) and termination (C7) -/

/-- Descriptor-level reachability along superclass links: the classes the
resolver loop can step through starting from a class descriptor. -/
inductive ReachesDesc (db : ReflectionDatabase) :
    RbxClassDescriptor → RbxClassDescriptor → Prop
  | refl (cd : RbxClassDescriptor) : ReachesDesc db cd cd
  | step {cd : RbxClassDescriptor} {m : ClassName} {next cd2 : RbxClassDescriptor} :
      cd.superclass = some m → db.get_class_descriptor m = some next →
      ReachesDesc db next cd2 → ReachesDesc db cd cd2

/-- A class descriptor lies on the inheritance chain of a named class. -/
inductive ReachesClass (db : ReflectionDatabase) :
    ClassName → RbxClassDescriptor → Prop
  | here {n : ClassName} {cd : RbxClassDescriptor} :
      db.get_class_descriptor n = some cd → ReachesClass db n cd
  | fromSuper {n : ClassName} {cd : RbxClassDescriptor} {m : ClassName}
      {cd2 : RbxClassDescriptor} :
      db.get_class_descriptor n = some cd → cd.superclass = some m →
      ReachesClass db m cd2 → ReachesClass db n cd2

lemma reachesClass_of_desc {db : ReflectionDatabase} {cd cd2 : RbxClassDescriptor}
    (h : ReachesDesc db cd cd2) :
    ∀ n, db.get_class_descriptor n = some cd → ReachesClass db n cd2 := by
  induction h with
  | refl cd => exact fun n hn => .here hn
  | step hsup hget _ ih => exact fun n hn => .fromSuper hn hsup (ih _ hget)

/-- The shape claim C4 (and spec section 4.1) ascribes to the result of a
successful resolution on the chain class `cd` whose matching descriptor is
`pd`: if `pd` is canonical, the canonical result is `pd` itself and the
serialized result is the same-class descriptor named by its
`serialized_name` when present, else `pd`; if `pd` instead carries a
`canonical_name`, the canonical result is the same class's descriptor of
that name and the serialized result is that descriptor's
`serialized_name` descriptor when present, else the canonical
descriptor. -/
def ResolvedPairSpec (cd : RbxClassDescriptor) (pd c s : RbxPropertyDescriptor) : Prop :=
  (pd.is_canonical = true ∧ c = pd ∧
    ((pd.serialized_name = none ∧ s = pd) ∨
     (∃ sn, pd.serialized_name = some sn ∧ cd.get_property_descriptor sn = some s)))
  ∨ (pd.is_canonical = false ∧
     (∃ cn, pd.canonical_name = some cn ∧ cd.get_property_descriptor cn = some c) ∧
     ((c.serialized_name = none ∧ s = c) ∨
      (∃ sn, c.serialized_name = some sn ∧ cd.get_property_descriptor sn = some s)))

lemma resolve_loop_found_spec (db : ReflectionDatabase) (property_name : PropName) :
    ∀ (fuel : Nat) (cd : RbxClassDescriptor) (c s : RbxPropertyDescriptor),
      resolve_loop db property_name fuel cd = .found c s →
      ∃ cd2 pd, ReachesDesc db cd cd2 ∧
        cd2.get_property_descriptor property_name = some pd ∧
        ResolvedPairSpec cd2 pd c s := by
  intro fuel
  induction fuel with
  | zero => intro cd c s h; simp [resolve_loop] at h
  | succ fuel ih =>
    intro cd c s h
    rw [resolve_loop] at h
    cases hp : cd.get_property_descriptor property_name with
    | some pd =>
      simp only [hp] at h
      cases hc : pd.is_canonical with
      | true =>
        simp only [hc, if_true] at h
        cases hs : pd.serialized_name with
        | some sn =>
          simp only [hs] at h
          cases hlook : cd.get_property_descriptor sn with
          | some sd =>
            simp only [hlook, Resolved.found.injEq] at h
            obtain ⟨rfl, rfl⟩ := h
            exact ⟨cd, pd, .refl cd, hp,
              Or.inl ⟨hc, rfl, Or.inr ⟨sn, hs, hlook⟩⟩⟩
          | none => simp [hlook] at h
        | none =>
          simp only [hs, Resolved.found.injEq] at h
          obtain ⟨rfl, rfl⟩ := h
          exact ⟨cd, pd, .refl cd, hp, Or.inl ⟨hc, rfl, Or.inl ⟨hs, rfl⟩⟩⟩
      | false =>
        simp only [hc, Bool.false_eq_true, if_false] at h
        cases hcn : pd.canonical_name with
        | some cn =>
          simp only [hcn] at h
          cases hlook : cd.get_property_descriptor cn with
          | some cand =>
            simp only [hlook] at h
            cases hs : cand.serialized_name with
            | some sn =>
              simp only [hs] at h
              cases hlook2 : cd.get_property_descriptor sn with
              | some sd =>
                simp only [hlook2, Resolved.found.injEq] at h
                obtain ⟨rfl, rfl⟩ := h
                exact ⟨cd, pd, .refl cd, hp,
                  Or.inr ⟨hc, ⟨cn, hcn, hlook⟩, Or.inr ⟨sn, hs, hlook2⟩⟩⟩
              | none => simp [hlook2] at h
            | none =>
              simp only [hs, Resolved.found.injEq] at h
              obtain ⟨rfl, rfl⟩ := h
              exact ⟨cd, pd, .refl cd, hp,
                Or.inr ⟨hc, ⟨cn, hcn, hlook⟩, Or.inl ⟨hs, rfl⟩⟩⟩
          | none => simp [hlook] at h
        | none => simp [hcn] at h
    | none =>
      simp only [hp] at h
      cases hsup : cd.superclass with
      | some m =>
        simp only [hsup] at h
        cases hget : db.get_class_descriptor m with
        | some next =>
          simp only [hget] at h
          obtain ⟨cd2, pd, hreach, hpd, hspec⟩ := ih next c s h
          exact ⟨cd2, pd, .step hsup hget hreach, hpd, hspec⟩
        | none => simp [hget] at h
      | none => simp [hsup] at h

/-- Claim C4: whenever resolution succeeds with the pair `(c, s)`, there is
a class on the inheritance chain whose matching descriptor produces
exactly the pair described by the spec: canonical descriptors resolve to
themselves with their `serialized_name` descriptor (else themselves), and
alias descriptors resolve to the same class's canonical-name descriptor
with that descriptor's `serialized_name` descriptor (else itself). -/
theorem c4_resolver_characterization
    (db : ReflectionDatabase) (fuel : Nat) (class_name : ClassName)
    (property_name : PropName) (c s : RbxPropertyDescriptor)
    (hres : find_property_descriptors db fuel class_name property_name = .found c s) :
    ∃ cd pd, ReachesClass db class_name cd ∧
      cd.get_property_descriptor property_name = some pd ∧
      ResolvedPairSpec cd pd c s := by
  rw [find_property_descriptors] at hres
  cases hget : db.get_class_descriptor class_name with
  | none => rw [hget] at hres; cases hres
  | some cd0 =>
    rw [hget] at hres
    obtain ⟨cd2, pd, hreach, hpd, hspec⟩ :=
      resolve_loop_found_spec db property_name fuel cd0 c s hres
    exact ⟨cd2, pd, reachesClass_of_desc hreach _ hget, hpd, hspec⟩

/-- Alias descriptor: `shape` points to canonical `Shape`. -/
def exAliasDesc : RbxPropertyDescriptor :=
  { name := "shape", property_type := .Data .string, is_canonical := false,
    canonical_name := some "Shape", serialized_name := none }

/-- Canonical descriptor `Shape`, serialized as `shapeRaw`. -/
def exShapeDesc : RbxPropertyDescriptor :=
  { name := "Shape", property_type := .Data .string, is_canonical := true,
    canonical_name := none, serialized_name := some "shapeRaw" }

/-- Serialized-form descriptor `shapeRaw`. -/
def exShapeRawDesc : RbxPropertyDescriptor :=
  { name := "shapeRaw", property_type := .Data .string, is_canonical := false,
    canonical_name := some "Shape", serialized_name := none }

/-- Class `Part`: declares the alias `shape`, the canonical `Shape` and
its serialized form `shapeRaw`; inherits from `Base`. -/
def exPartClass : RbxClassDescriptor :=
  { name := "Part", superclass := some "Base",
    properties := [exAliasDesc, exShapeDesc, exShapeRawDesc] }

/-- Class `Base`: no superclass, no properties. -/
def exBaseClass : RbxClassDescriptor :=
  { name := "Base", superclass := none, properties := [] }

/-- Database for the resolver witnesses. -/
def exAliasDb : ReflectionDatabase :=
  { classes := [exPartClass, exBaseClass] }

/-- Witness for C4 at a concrete input: resolving the alias `shape` on
`Part` succeeds with the canonical `Shape` and the serialized
`shapeRaw`. -/
theorem c4_witness :
    find_property_descriptors exAliasDb 1 "Part" "shape" =
      .found exShapeDesc exShapeRawDesc
    ∧ ∃ cd pd, ReachesClass exAliasDb "Part" cd ∧
      cd.get_property_descriptor "shape" = some pd ∧
      ResolvedPairSpec cd pd exShapeDesc exShapeRawDesc :=
  ⟨by decide,
    c4_resolver_characterization exAliasDb 1 "Part" "shape" exShapeDesc
      exShapeRawDesc (by decide)⟩

/-- The full superclass chain of a named class: the list of class
descriptors met by following superclass links until a class with no
superclass, every link present in the database.  Such a chain is finite
by construction, i.e. it contains no cycle. -/
inductive InheritanceChain (db : ReflectionDatabase) :
    ClassName → List RbxClassDescriptor → Prop
  | last {n : ClassName} {cd : RbxClassDescriptor} :
      db.get_class_descriptor n = some cd → cd.superclass = none →
      InheritanceChain db n [cd]
  | cons {n : ClassName} {cd : RbxClassDescriptor} {m : ClassName}
      {rest : List RbxClassDescriptor} :
      db.get_class_descriptor n = some cd → cd.superclass = some m →
      InheritanceChain db m rest → InheritanceChain db n (cd :: rest)

lemma inheritanceChain_head {db : ReflectionDatabase} {n : ClassName}
    {descs : List RbxClassDescriptor} (h : InheritanceChain db n descs) :
    ∃ cd rest, descs = cd :: rest ∧ db.get_class_descriptor n = some cd := by
  cases h with
  | last hget _ => exact ⟨_, _, rfl, hget⟩
  | cons hget _ _ => exact ⟨_, _, rfl, hget⟩

lemma resolve_loop_step_ne_outOfFuel (db : ReflectionDatabase)
    (property_name : PropName) (fuel : Nat) (cd : RbxClassDescriptor)
    (pd : RbxPropertyDescriptor)
    (hp : cd.get_property_descriptor property_name = some pd) :
    resolve_loop db property_name (fuel + 1) cd ≠ .outOfFuel := by
  rw [resolve_loop]
  simp only [hp]
  (repeat' split) <;> simp

lemma chain_loop_mono (db : ReflectionDatabase) (property_name : PropName) :
    ∀ {n : ClassName} {descs : List RbxClassDescriptor},
      InheritanceChain db n descs →
      ∀ {cd : RbxClassDescriptor}, db.get_class_descriptor n = some cd →
      ∀ fuel, descs.length ≤ fuel →
        resolve_loop db property_name fuel cd =
        resolve_loop db property_name descs.length cd := by
  intro n descs h
  induction h with
  | last hget hsup =>
    intro cd hget2 fuel hfuel
    rw [hget] at hget2
    cases hget2
    cases fuel with
    | zero => simp at hfuel
    | succ f =>
      show resolve_loop db property_name (f + 1) _ =
        resolve_loop db property_name (0 + 1) _
      rw [resolve_loop, resolve_loop]
      cases hp : RbxClassDescriptor.get_property_descriptor _ property_name with
      | some pd => simp only [hp]
      | none => simp only [hp, hsup]
  | cons hget hsup hchain ih =>
    intro cd hget2 fuel hfuel
    rw [hget] at hget2
    cases hget2
    obtain ⟨cd1, rest1, rfl, hget4⟩ := inheritanceChain_head hchain
    cases fuel with
    | zero => simp at hfuel
    | succ f =>
      show resolve_loop db property_name (f + 1) _ =
        resolve_loop db property_name ((cd1 :: rest1).length + 1) _
      rw [resolve_loop, resolve_loop]
      cases hp : RbxClassDescriptor.get_property_descriptor _ property_name with
      | some pd => simp only [hp]
      | none =>
        simp only [hp, hsup, hget4]
        exact ih hget4 f (Nat.succ_le_succ_iff.mp hfuel)

lemma chain_loop_not_outOfFuel (db : ReflectionDatabase) (property_name : PropName) :
    ∀ {n : ClassName} {descs : List RbxClassDescriptor},
      InheritanceChain db n descs →
      ∀ {cd : RbxClassDescriptor}, db.get_class_descriptor n = some cd →
        resolve_loop db property_name descs.length cd ≠ .outOfFuel := by
  intro n descs h
  induction h with
  | last hget hsup =>
    intro cd hget2
    rw [hget] at hget2
    cases hget2
    show resolve_loop db property_name (0 + 1) _ ≠ .outOfFuel
    cases hp : RbxClassDescriptor.get_property_descriptor _ property_name with
    | some pd => exact resolve_loop_step_ne_outOfFuel db property_name 0 _ pd hp
    | none => rw [resolve_loop]; simp [hp, hsup]
  | cons hget hsup hchain ih =>
    intro cd hget2
    rw [hget] at hget2
    cases hget2
    obtain ⟨cd1, rest1, rfl, hget4⟩ := inheritanceChain_head hchain
    show resolve_loop db property_name ((cd1 :: rest1).length + 1) _ ≠ .outOfFuel
    cases hp : RbxClassDescriptor.get_property_descriptor _ property_name with
    | some pd => exact resolve_loop_step_ne_outOfFuel db property_name _ _ pd hp
    | none =>
      rw [resolve_loop]
      simp only [hp, hsup, hget4]
      exact ih hget4

lemma chain_loop_notFound (db : ReflectionDatabase) (property_name : PropName) :
    ∀ {n : ClassName} {descs : List RbxClassDescriptor},
      InheritanceChain db n descs →
      ∀ {cd : RbxClassDescriptor}, db.get_class_descriptor n = some cd →
      (∀ cd2 ∈ descs, cd2.get_property_descriptor property_name = none) →
        resolve_loop db property_name descs.length cd = .notFound := by
  intro n descs h
  induction h with
  | last hget hsup =>
    intro cd hget2 habs
    rw [hget] at hget2
    cases hget2
    show resolve_loop db property_name (0 + 1) _ = .notFound
    rw [resolve_loop]
    simp [habs _ (List.mem_singleton_self _), hsup]
  | cons hget hsup hchain ih =>
    intro cd hget2 habs
    rw [hget] at hget2
    cases hget2
    obtain ⟨cd1, rest1, rfl, hget4⟩ := inheritanceChain_head hchain
    show resolve_loop db property_name ((cd1 :: rest1).length + 1) _ = .notFound
    rw [resolve_loop]
    simp only [habs _ (List.mem_cons_self _ _), hsup, hget4]
    exact ih hget4 (fun cd2 hmem => habs cd2 (List.mem_cons_of_mem _ hmem))

/-- Claim C7: for a class whose superclass chain exists and has length d
(finite, hence cycle-free), resolution with fuel d already gives the
final answer — any larger fuel returns the same result and the d-step
result is not a fuel exhaustion; a property declared by no class of the
chain resolves to "not found" (never a panic), and a class name unknown
to the database resolves to "not found" at any fuel. -/
theorem c7_resolver_termination
    (db : ReflectionDatabase) (property_name : PropName) (class_name : ClassName)
    (descs : List RbxClassDescriptor)
    (hchain : InheritanceChain db class_name descs) :
    (∀ fuel, descs.length ≤ fuel →
      find_property_descriptors db fuel class_name property_name =
      find_property_descriptors db descs.length class_name property_name)
    ∧ find_property_descriptors db descs.length class_name property_name ≠ .outOfFuel
    ∧ ((∀ cd ∈ descs, cd.get_property_descriptor property_name = none) →
      find_property_descriptors db descs.length class_name property_name = .notFound)
    ∧ (∀ n2, db.get_class_descriptor n2 = none →
      ∀ fuel, find_property_descriptors db fuel n2 property_name = .notFound) := by
  obtain ⟨cd, rest, rfl, hget⟩ := inheritanceChain_head hchain
  refine ⟨?_, ?_, ?_, ?_⟩
  · intro fuel hf
    rw [find_property_descriptors, find_property_descriptors]
    simp only [hget]
    exact chain_loop_mono db property_name hchain hget fuel hf
  · rw [find_property_descriptors]
    simp only [hget]
    exact chain_loop_not_outOfFuel db property_name hchain hget
  · intro habs
    rw [find_property_descriptors]
    simp only [hget]
    exact chain_loop_notFound db property_name hchain hget habs
  · intro n2 hn2 fuel
    rw [find_property_descriptors]
    simp [hn2]

/-- Witness for C7 at a concrete input: the chain of `Part` in the example
database is `[Part, Base]`, and the absent property `Nope` resolves to
"not found" in two steps. -/
theorem c7_witness :
    InheritanceChain exAliasDb "Part" [exPartClass, exBaseClass]
    ∧ ((∀ fuel, ([exPartClass, exBaseClass].length) ≤ fuel →
        find_property_descriptors exAliasDb fuel "Part" "Nope" =
        find_property_descriptors exAliasDb ([exPartClass, exBaseClass].length)
          "Part" "Nope")
      ∧ find_property_descriptors exAliasDb ([exPartClass, exBaseClass].length)
          "Part" "Nope" ≠ .outOfFuel
      ∧ ((∀ cd ∈ [exPartClass, exBaseClass],
          cd.get_property_descriptor "Nope" = none) →
        find_property_descriptors exAliasDb ([exPartClass, exBaseClass].length)
          "Part" "Nope" = .notFound)
      ∧ (∀ n2, exAliasDb.get_class_descriptor n2 = none →
        ∀ fuel, find_property_descriptors exAliasDb fuel n2 "Nope" = .notFound)) :=
  have hchain : InheritanceChain exAliasDb "Part" [exPartClass, exBaseClass] :=
    @InheritanceChain.cons exAliasDb "Part" exPartClass "Base" [exBaseClass]
      (by decide) (by decide)
      (@InheritanceChain.last exAliasDb "Base" exBaseClass (by decide) (by decide))
  ⟨hchain, c7_resolver_termination exAliasDb "Nope" "Part"
    [exPartClass, exBaseClass] hchain⟩

/-! ## Emit-state invariants (C5, C6) -/

/-- Append an id to the seen list unless already present. -/
def addEncounter (seen : List RbxId) (a : RbxId) : List RbxId :=
  if a ∈ seen then seen else seen ++ [a]

/-- The distinct ids of a sequence, kept in first-encounter order. -/
def firstDedup (l : List RbxId) : List RbxId := l.foldl addEncounter []

lemma addEncounter_nodup {seen : List RbxId} (h : seen.Nodup) (a : RbxId) :
    (addEncounter seen a).Nodup := by
  unfold addEncounter
  split
  · exact h
  · next hmem =>
    exact h.append (List.nodup_singleton a)
      (by simpa [List.disjoint_singleton] using hmem)

lemma mem_addEncounter {seen : List RbxId} {a b : RbxId} :
    b ∈ addEncounter seen a ↔ b ∈ seen ∨ b = a := by
  unfold addEncounter
  split
  · next hmem =>
    constructor
    · exact Or.inl
    · rintro (hb | rfl)
      · exact hb
      · exact hmem
  · simp

lemma foldl_addEncounter_nodup (l : List RbxId) :
    ∀ {seen : List RbxId}, seen.Nodup → (l.foldl addEncounter seen).Nodup := by
  induction l with
  | nil => intro seen h; exact h
  | cons a t ih => intro seen h; exact ih (addEncounter_nodup h a)

lemma mem_foldl_addEncounter (l : List RbxId) :
    ∀ (seen : List RbxId) (b : RbxId),
      b ∈ l.foldl addEncounter seen ↔ b ∈ seen ∨ b ∈ l := by
  induction l with
  | nil => simp
  | cons a t ih =>
    intro seen b
    rw [List.foldl_cons, ih, mem_addEncounter]
    constructor
    · rintro ((hb | rfl) | hb)
      · exact Or.inl hb
      · exact Or.inr (List.mem_cons_self _ _)
      · exact Or.inr (List.mem_cons_of_mem _ hb)
    · rintro (hb | hb)
      · exact Or.inl (Or.inl hb)
      · rcases List.mem_cons.mp hb with rfl | hb
        · exact Or.inl (Or.inr rfl)
        · exact Or.inr hb

lemma firstDedup_nodup (l : List RbxId) : (firstDedup l).Nodup :=
  foldl_addEncounter_nodup l List.nodup_nil

lemma mem_firstDedup {l : List RbxId} {b : RbxId} : b ∈ firstDedup l ↔ b ∈ l := by
  unfold firstDedup
  rw [mem_foldl_addEncounter]
  simp

lemma firstDedup_append_one (l : List RbxId) (a : RbxId) :
    firstDedup (l ++ [a]) = addEncounter (firstDedup l) a := by
  unfold firstDedup
  rw [List.foldl_append]
  rfl

lemma lookupId_eq_none_iff (m : List (RbxId × Nat)) (i : RbxId) :
    lookupId m i = none ↔ i ∉ m.map Prod.fst := by
  induction m with
  | nil => simp [lookupId]
  | cons p rest ih =>
    rw [lookupId]
    split
    · next hp => simp [← hp]
    · next hp => simpa [Ne.symm hp] using ih

lemma lookupId_isSome_of_mem {m : List (RbxId × Nat)} {i : RbxId}
    (h : i ∈ m.map Prod.fst) : ∃ v, lookupId m i = some v := by
  cases hl : lookupId m i with
  | some v => exact ⟨v, rfl⟩
  | none => exact absurd h ((lookupId_eq_none_iff m i).mp hl)

/-- The referent-map invariant of claim C5: the assigned referents are the
dense range `0..n` in assignment order, `next_referent` is the number of
assignments made, and the keys are exactly the distinct ids of the ghost
`map_id` log in first-encounter order. -/
def RefInvariant (s : EmitState) : Prop :=
  s.referent_map.map Prod.snd = List.range s.referent_map.length
  ∧ s.next_referent = s.referent_map.length
  ∧ s.referent_map.map Prod.fst = firstDedup s.ref_log

/-- The shared-string dictionary invariant of claim C6: unique hash keys,
every entry keyed by the digest of its payload, and an entry present for
exactly the blobs of the ghost `add_shared_string` log. -/
def SharedInvariant (s : EmitState) : Prop :=
  (s.shared_strings_to_emit.map Prod.fst).Nodup
  ∧ (∀ p ∈ s.shared_strings_to_emit, p.1 = md5_hash p.2)
  ∧ (∀ b, (md5_hash b, b) ∈ s.shared_strings_to_emit ↔ b ∈ s.shared_log)

def StateInvariant (s : EmitState) : Prop :=
  RefInvariant s ∧ SharedInvariant s

lemma stateInvariant_new (options : EncodeOptions) :
    StateInvariant (EmitState.new options) := by
  refine ⟨⟨rfl, rfl, rfl⟩, ⟨List.nodup_nil, ?_, ?_⟩⟩ <;> simp [EmitState.new]

lemma map_id_invariant {s : EmitState} (i : RbxId) (h : StateInvariant s) :
    StateInvariant (s.map_id i).2 := by
  obtain ⟨⟨hvals, hnext, hkeys⟩, hshared⟩ := h
  unfold EmitState.map_id
  cases hl : lookupId s.referent_map i with
  | some v =>
    refine ⟨⟨hvals, hnext, ?_⟩, hshared⟩
    have hmem : i ∈ s.referent_map.map Prod.fst := by
      by_contra hc
      rw [← lookupId_eq_none_iff] at hc
      rw [hc] at hl
      cases hl
    simp only [firstDedup_append_one, ← hkeys, addEncounter]
    rw [if_pos hmem]
  | none =>
    have hmem : i ∉ s.referent_map.map Prod.fst := (lookupId_eq_none_iff _ _).mp hl
    refine ⟨⟨?_, ?_, ?_⟩, hshared⟩
    · simp [hvals, hnext, List.range_succ]
    · simp [hnext]
    · simp only [firstDedup_append_one, ← hkeys, addEncounter]
      rw [if_neg hmem]
      simp

lemma insertShared_keys (m : List (List Nat × List Nat)) (k v : List Nat) :
    (insertShared m k v).map Prod.fst =
      if k ∈ m.map Prod.fst then m.map Prod.fst else m.map Prod.fst ++ [k] := by
  induction m with
  | nil => simp [insertShared]
  | cons p rest ih =>
    rw [insertShared]
    split
    · next hp =>
      subst hp
      simp
    · next hp =>
      have hne : k ≠ p.1 := fun hc => hp hc.symm
      simp only [List.map_cons, List.mem_cons, hne, false_or]
      rw [ih]
      split <;> simp

lemma insertShared_keys_nodup {m : List (List Nat × List Nat)}
    (h : (m.map Prod.fst).Nodup) (k v : List Nat) :
    ((insertShared m k v).map Prod.fst).Nodup := by
  rw [insertShared_keys]
  split
  · exact h
  · next hmem =>
    exact h.append (List.nodup_singleton k)
      (by simpa [List.disjoint_singleton] using hmem)

lemma mem_insertShared {m : List (List Nat × List Nat)}
    (hnd : (m.map Prod.fst).Nodup) {k v a b : List Nat} :
    (a, b) ∈ insertShared m k v ↔
      (a = k ∧ b = v) ∨ ((a, b) ∈ m ∧ a ≠ k) := by
  induction m with
  | nil =>
    simp only [insertShared, List.mem_singleton, Prod.mk.injEq, List.not_mem_nil,
      false_and, or_false]
  | cons p rest ih =>
    simp only [List.map_cons, List.nodup_cons] at hnd
    rw [insertShared]
    split
    · next hp =>
      subst hp
      constructor
      · intro hmem
        rcases List.mem_cons.mp hmem with h1 | h1
        · injection h1 with h1a h1b
          subst h1a
          subst h1b
          exact Or.inl ⟨rfl, rfl⟩
        · refine Or.inr ⟨List.mem_cons_of_mem _ h1, fun hak => hnd.1 ?_⟩
          rw [← hak]
          exact List.mem_map.mpr ⟨(a, b), h1, rfl⟩
      · rintro (⟨rfl, rfl⟩ | ⟨hmem, hak⟩)
        · exact List.mem_cons_self _ _
        · rcases List.mem_cons.mp hmem with h1 | h1
          · exact absurd (congrArg Prod.fst h1) hak
          · exact List.mem_cons_of_mem _ h1
    · next hp =>
      constructor
      · intro hmem
        rcases List.mem_cons.mp hmem with h1 | h1
        · subst h1
          exact Or.inr ⟨List.mem_cons_self _ _, hp⟩
        · rcases (ih hnd.2).mp h1 with h2 | ⟨h2, h3⟩
          · exact Or.inl h2
          · exact Or.inr ⟨List.mem_cons_of_mem _ h2, h3⟩
      · rintro (⟨rfl, rfl⟩ | ⟨hmem, hak⟩)
        · exact List.mem_cons_of_mem _ ((ih hnd.2).mpr (Or.inl ⟨rfl, rfl⟩))
        · rcases List.mem_cons.mp hmem with h1 | h1
          · subst h1
            exact List.mem_cons_self _ _
          · exact List.mem_cons_of_mem _ ((ih hnd.2).mpr (Or.inr ⟨h1, hak⟩))

lemma add_shared_string_invariant {s : EmitState} (v : List Nat)
    (h : StateInvariant s) : StateInvariant (s.add_shared_string v) := by
  have href := h.1
  have hnd := h.2.1
  have hkeyed := h.2.2.1
  have hmem := h.2.2.2
  refine ⟨href, ?_, ?_, ?_⟩
  · exact insertShared_keys_nodup hnd _ _
  · intro p hp
    rw [EmitState.add_shared_string] at hp
    have := (mem_insertShared (k := md5_hash v) (v := v) (a := p.1) (b := p.2) hnd).mp
      (by simpa using hp)
    rcases this with ⟨h1, h2⟩ | ⟨h1, _⟩
    · simp [h1, h2]
    · exact hkeyed p h1
  · intro b
    rw [EmitState.add_shared_string]
    simp only
    rw [mem_insertShared hnd]
    simp only [md5_hash, List.mem_append, List.mem_singleton]
    constructor
    · rintro (⟨rfl, -⟩ | ⟨h1, h2⟩)
      · exact Or.inr rfl
      · exact Or.inl ((hmem b).mp h1)
    · rintro (h1 | rfl)
      · by_cases hbv : b = v
        · exact Or.inl ⟨hbv, hbv⟩
        · exact Or.inr ⟨(hmem b).mpr h1, hbv⟩
      · exact Or.inl ⟨rfl, rfl⟩


/-- Events that never occur outside the shared-string dictionary block. -/
def noDictEvents (evs : List XmlEvent) : Prop :=
  (∀ h d, XmlEvent.sharedStringEntry h d ∉ evs) ∧
  (∀ attrs, XmlEvent.startElement "SharedStrings" attrs ∉ evs)

lemma noDictEvents_nil : noDictEvents [] := by
  constructor <;> simp

lemma noDictEvents_append {l1 l2 : List XmlEvent}
    (h1 : noDictEvents l1) (h2 : noDictEvents l2) : noDictEvents (l1 ++ l2) := by
  constructor
  · intro a d
    simp only [List.mem_append, not_or]
    exact ⟨h1.1 a d, h2.1 a d⟩
  · intro attrs
    simp only [List.mem_append, not_or]
    exact ⟨h1.2 attrs, h2.2 attrs⟩

lemma write_value_xml_good (state : EmitState) (n : String) (v : RbxValue)
    (h : StateInvariant state) :
    StateInvariant (write_value_xml state n v).2 ∧
    noDictEvents (write_value_xml state n v).1 := by
  cases v with
  | ref t =>
    cases t with
    | some target =>
      exact ⟨map_id_invariant target h, by constructor <;> simp [write_value_xml]⟩
    | none => exact ⟨h, by constructor <;> simp [write_value_xml]⟩
  | sharedString d =>
    exact ⟨add_shared_string_invariant d h, by constructor <;> simp [write_value_xml]⟩
  | string x => exact ⟨h, by constructor <;> simp [write_value_xml]⟩
  | bool x => exact ⟨h, by constructor <;> simp [write_value_xml]⟩
  | int32 x => exact ⟨h, by constructor <;> simp [write_value_xml]⟩
  | int64 x => exact ⟨h, by constructor <;> simp [write_value_xml]⟩
  | enum x => exact ⟨h, by constructor <;> simp [write_value_xml]⟩

/-- A successful `serialize_property` call either skips the property
(no events, state untouched) or performs exactly one `write_value_xml`
call on the incoming state. -/
lemma serialize_property_cases (db : ReflectionDatabase) (rfuel : Nat)
    (state : EmitState) (class_name : ClassName) (property_name : PropName)
    (value : RbxValue) (ev : List XmlEvent) (s2 : EmitState)
    (h : serialize_property db rfuel state class_name property_name value =
      .ok (ev, s2)) :
    (ev = [] ∧ s2 = state) ∨
    (∃ n v, (ev, s2) = write_value_xml state n v) := by
  simp only [serialize_property] at h
  repeat' split at h
  all_goals
    first
    | (injection h with h'
       first
       | exact Or.inl ⟨(congrArg Prod.fst h').symm, (congrArg Prod.snd h').symm⟩
       | exact Or.inr ⟨_, _, h'.symm⟩)
    | cases h

lemma serialize_property_good {db : ReflectionDatabase} {rfuel : Nat}
    {state : EmitState} {class_name : ClassName} {property_name : PropName}
    {value : RbxValue} {ev : List XmlEvent} {s2 : EmitState}
    (h : serialize_property db rfuel state class_name property_name value =
      .ok (ev, s2))
    (hinv : StateInvariant state) : StateInvariant s2 ∧ noDictEvents ev := by
  rcases serialize_property_cases db rfuel state class_name property_name value
      ev s2 h with ⟨rfl, rfl⟩ | ⟨n, v, hpair⟩
  · exact ⟨hinv, noDictEvents_nil⟩
  · have hg := write_value_xml_good state n v hinv
    have h1 : ev = (write_value_xml state n v).1 := congrArg Prod.fst hpair
    have h2 : s2 = (write_value_xml state n v).2 := congrArg Prod.snd hpair
    rw [h1, h2]
    exact ⟨hg.1, hg.2⟩

lemma serialize_properties_good (db : ReflectionDatabase) (rfuel : Nat)
    (class_name : ClassName) :
    ∀ (props : List (PropName × RbxValue)) (state : EmitState)
      (ev : List XmlEvent) (s2 : EmitState),
      serialize_properties db rfuel class_name state props = .ok (ev, s2) →
      StateInvariant state → StateInvariant s2 ∧ noDictEvents ev := by
  intro props
  induction props with
  | nil =>
    intro state ev s2 h hinv
    rw [serialize_properties] at h
    cases h
    exact ⟨hinv, noDictEvents_nil⟩
  | cons p rest ih =>
    obtain ⟨pn, pv⟩ := p
    intro state ev s2 h hinv
    rw [serialize_properties] at h
    split at h
    · next ev1 s1 heq1 =>
      split at h
      · next ev2 s3 heq2 =>
        cases h
        have hgood1 := serialize_property_good heq1 hinv
        have hgood2 := ih s1 ev2 s2 heq2 hgood1.1
        exact ⟨hgood2.1, noDictEvents_append hgood1.2 hgood2.2⟩
      · cases h
      · cases h
      · cases h
    · cases h
    · cases h
    · cases h

lemma serialize_children_good
    (f : EmitState → RbxId → EncResult (List XmlEvent × EmitState))
    (hf : ∀ s i ev s2, f s i = .ok (ev, s2) → StateInvariant s →
      StateInvariant s2 ∧ noDictEvents ev) :
    ∀ (l : List RbxId) (state : EmitState) (ev : List XmlEvent) (s2 : EmitState),
      serialize_children f state l = .ok (ev, s2) →
      StateInvariant state → StateInvariant s2 ∧ noDictEvents ev := by
  intro l
  induction l with
  | nil =>
    intro state ev s2 h hinv
    rw [serialize_children] at h
    cases h
    exact ⟨hinv, noDictEvents_nil⟩
  | cons i rest ih =>
    intro state ev s2 h hinv
    rw [serialize_children] at h
    split at h
    · next ev1 s1 heq1 =>
      split at h
      · next ev2 s3 heq2 =>
        cases h
        have hgood1 := hf state i ev1 s1 heq1 hinv
        have hgood2 := ih s1 ev2 s2 heq2 hgood1.1
        exact ⟨hgood2.1, noDictEvents_append hgood1.2 hgood2.2⟩
      · cases h
      · cases h
      · cases h
    · cases h
    · cases h
    · cases h

lemma serialize_instance_good (db : ReflectionDatabase) (rfuel : Nat)
    (tree : RbxTree) :
    ∀ (fuel : Nat) (state : EmitState) (i : RbxId) (ev : List XmlEvent)
      (s2 : EmitState),
      serialize_instance db rfuel tree fuel state i = .ok (ev, s2) →
      StateInvariant state → StateInvariant s2 ∧ noDictEvents ev := by
  intro fuel
  induction fuel with
  | zero =>
    intro state i ev s2 h hinv
    rw [serialize_instance] at h
    cases h
  | succ fuel ih =>
    intro state i ev s2 h hinv
    rw [serialize_instance] at h
    cases hins : tree.get_instance i with
    | none => rw [hins] at h; cases h
    | some inst =>
      simp only [hins] at h
      split at h
      · next evP sP heqP =>
        split at h
        · next evC sC heqC =>
          cases h
          have hinv1 : StateInvariant (state.map_id i).2 := map_id_invariant i hinv
          have hgN := write_value_xml_good (state.map_id i).2 "Name"
            (.string inst.name) hinv1
          have hgP := serialize_properties_good db rfuel inst.class_name
            (sortProps inst.properties) _ evP sP heqP hgN.1
          have hgC := serialize_children_good _
            (fun s j ev2 s3 hj hj2 => ih s j ev2 s3 hj hj2)
            inst.children sP evC s2 heqC hgP.1
          refine ⟨hgC.1, ?_⟩
          refine noDictEvents_append (noDictEvents_append (noDictEvents_append
            (noDictEvents_append (noDictEvents_append ?_ hgN.2) hgP.2) ?_) hgC.2) ?_
          · constructor <;> simp
          · constructor <;> simp
          · constructor <;> simp
        · cases h
        · cases h
        · cases h
      · cases h
      · cases h
      · cases h

lemma serialize_shared_strings_snd
    (iterOrder : List (List Nat × List Nat) → List (List Nat × List Nat))
    (state : EmitState) : (serialize_shared_strings iterOrder state).2 = state := by
  rw [serialize_shared_strings]
  split <;> rfl

/-- Decomposition of a successful encode: the final state satisfies the
emit-state invariants, and the output is the document header, the
dictionary-free instance events, the dictionary block and the closing
tag. -/
lemma encode_internal_good {db : ReflectionDatabase} {rfuel : Nat}
    {iterOrder : List (List Nat × List Nat) → List (List Nat × List Nat)}
    {tree : RbxTree} {ids : List RbxId} {options : EncodeOptions} {fuel : Nat}
    {events : List XmlEvent} {s : EmitState}
    (h : encode_internal db rfuel iterOrder tree ids options fuel =
      .ok (events, s)) :
    StateInvariant s ∧
    ∃ evRoots, noDictEvents evRoots ∧
      events = [XmlEvent.startElement "roblox" [("version", "4")]] ++ evRoots ++
        (serialize_shared_strings iterOrder s).1 ++ [XmlEvent.endElement] := by
  rw [encode_internal] at h
  split at h
  · next evRoots s1 heq =>
    have hgood := serialize_children_good _
      (fun st j ev2 s3 hj hj2 =>
        serialize_instance_good db rfuel tree fuel st j ev2 s3 hj hj2)
      ids (EmitState.new options) evRoots s1 heq (stateInvariant_new options)
    cases h
    rw [serialize_shared_strings_snd]
    exact ⟨hgood.1, evRoots, hgood.2, rfl⟩
  · cases h
  · cases h
  · cases h

/-- Claim C5: after a successful encode call, the referent map sends the
distinct ids passed through `map_id` — in first-encounter order of the
depth-first pre-order walk, recorded by the ghost log — injectively onto
the dense range `0..n`, and an id encountered again reuses its existing
referent (the map is unchanged and the stored value is returned). -/
theorem c5_referent_assignment
    (db : ReflectionDatabase) (rfuel : Nat)
    (iterOrder : List (List Nat × List Nat) → List (List Nat × List Nat))
    (tree : RbxTree) (ids : List RbxId) (options : EncodeOptions) (fuel : Nat)
    (events : List XmlEvent) (s : EmitState)
    (henc : encode_internal db rfuel iterOrder tree ids options fuel =
      .ok (events, s)) :
    s.referent_map.map Prod.snd = List.range s.referent_map.length
    ∧ (s.referent_map.map Prod.fst).Nodup
    ∧ s.referent_map.map Prod.fst = firstDedup s.ref_log
    ∧ (∀ i, i ∈ s.referent_map.map Prod.fst ↔ i ∈ s.ref_log)
    ∧ (∀ i, i ∈ s.referent_map.map Prod.fst →
        (s.map_id i).2.referent_map = s.referent_map ∧
        lookupId s.referent_map i = some (s.map_id i).1) := by
  obtain ⟨⟨hvals, hnext, hkeys⟩, -⟩ := (encode_internal_good henc).1
  refine ⟨hvals, ?_, hkeys, ?_, ?_⟩
  · rw [hkeys]
    exact firstDedup_nodup _
  · intro i
    rw [hkeys]
    exact mem_firstDedup
  · intro i hi
    obtain ⟨v, hv⟩ := lookupId_isSome_of_mem hi
    constructor
    · simp [EmitState.map_id, hv]
    · simp [EmitState.map_id, hv]

/-- Encode options with reflection disabled. -/
def exOptsNR : EncodeOptions := { property_behavior := .NoReflection }

/-- Tree for the referent witness: root 0 has one child 1, and the child
carries a reference property back to 0. -/
def exTreeC5 : RbxTree :=
  { instances :=
      [(0, { class_name := "Folder", name := "R", properties := [],
             children := [1] }),
       (1, { class_name := "ObjectValue", name := "V",
             properties := [("Value", .ref (some 0))], children := [] })] }

/-- The events produced by encoding `exTreeC5`. -/
def exC5Events : List XmlEvent :=
  [XmlEvent.startElement "roblox" [("version", "4")],
   XmlEvent.startElement "Item" [("class", "Folder"), ("referent", "0")],
   XmlEvent.startElement "Properties" [],
   XmlEvent.propValue "string" "Name" (RbxValue.string "R"),
   XmlEvent.endElement,
   XmlEvent.startElement "Item" [("class", "ObjectValue"), ("referent", "1")],
   XmlEvent.startElement "Properties" [],
   XmlEvent.propValue "string" "Name" (RbxValue.string "V"),
   XmlEvent.propRef "Value" (some 0),
   XmlEvent.endElement,
   XmlEvent.endElement,
   XmlEvent.endElement,
   XmlEvent.endElement]

/-- The final emit state of that encode: ids 0 and 1 got referents 0 and 1,
and the ghost log shows the re-encounter of id 0 through the reference
property. -/
def exC5State : EmitState :=
  { options := exOptsNR
    referent_map := [(0, 0), (1, 1)]
    next_referent := 2
    shared_strings_to_emit := []
    ref_log := [0, 1, 0]
    shared_log := [] }

/-- Witness for C5 at a concrete input. -/
theorem c5_witness :
    encode_internal exUnrepDb 1 (fun l => l) exTreeC5 [0] exOptsNR 2 =
      .ok (exC5Events, exC5State)
    ∧ (exC5State.referent_map.map Prod.snd =
        List.range exC5State.referent_map.length
      ∧ (exC5State.referent_map.map Prod.fst).Nodup
      ∧ exC5State.referent_map.map Prod.fst = firstDedup exC5State.ref_log
      ∧ (∀ i, i ∈ exC5State.referent_map.map Prod.fst ↔ i ∈ exC5State.ref_log)
      ∧ (∀ i, i ∈ exC5State.referent_map.map Prod.fst →
          (exC5State.map_id i).2.referent_map = exC5State.referent_map ∧
          lookupId exC5State.referent_map i = some (exC5State.map_id i).1)) :=
  ⟨by decide,
    c5_referent_assignment exUnrepDb 1 (fun l => l) exTreeC5 [0] exOptsNR 2
      exC5Events exC5State (by decide)⟩

lemma sharedEntryF_injective :
    Function.Injective
      (fun p : List Nat × List Nat => XmlEvent.sharedStringEntry p.1 p.2) := by
  intro p q h
  injection h with h1 h2
  exact Prod.ext h1 h2

/-- The dictionary events of a nonempty shared-string map. -/
lemma serialize_shared_strings_fst_of_ne
    (iterOrder : List (List Nat × List Nat) → List (List Nat × List Nat))
    (s : EmitState) (h : s.shared_strings_to_emit ≠ []) :
    (serialize_shared_strings iterOrder s).1 =
      [XmlEvent.startElement "SharedStrings" []] ++
      (iterOrder s.shared_strings_to_emit).map
        (fun p => XmlEvent.sharedStringEntry p.1 p.2) ++
      [XmlEvent.endElement] := by
  rw [serialize_shared_strings]
  cases hm : s.shared_strings_to_emit with
  | nil => exact absurd hm h
  | cons p rest => rfl

/-- The dictionary block of a final state with the C6 invariant lists the
entry of a blob exactly once when the blob was referenced, never
otherwise. -/
lemma dict_count (iterOrder : List (List Nat × List Nat) → List (List Nat × List Nat))
    (s : EmitState) (hio : ∀ l, (iterOrder l).Perm l)
    (hinv : SharedInvariant s) (b : List Nat) :
    (serialize_shared_strings iterOrder s).1.count
      (XmlEvent.sharedStringEntry (md5_hash b) b) =
      if b ∈ s.shared_log then 1 else 0 := by
  obtain ⟨hnd, hkeyed, hmem⟩ := hinv
  by_cases hm : s.shared_strings_to_emit = []
  · have hnotin : b ∉ s.shared_log := by
      intro hb
      have := (hmem b).mpr hb
      rw [hm] at this
      cases this
    simp [serialize_shared_strings, hm, hnotin]
  · rw [serialize_shared_strings_fst_of_ne iterOrder s hm]
    have hperm := hio s.shared_strings_to_emit
    have hmnodup : s.shared_strings_to_emit.Nodup := hnd.of_map
    have hionodup : (iterOrder s.shared_strings_to_emit).Nodup :=
      (hperm.nodup_iff).mpr hmnodup
    have hmapnodup :
        ((iterOrder s.shared_strings_to_emit).map
          (fun p => XmlEvent.sharedStringEntry p.1 p.2)).Nodup :=
      hionodup.map sharedEntryF_injective
    have hmemmap :
        XmlEvent.sharedStringEntry (md5_hash b) b ∈
          (iterOrder s.shared_strings_to_emit).map
            (fun p => XmlEvent.sharedStringEntry p.1 p.2) ↔ b ∈ s.shared_log := by
      rw [List.mem_map]
      constructor
      · rintro ⟨q, hq, hfq⟩
        injection hfq with h1 h2
        have : q = (md5_hash b, b) := Prod.ext h1 h2
        subst this
        exact (hmem b).mp (hperm.mem_iff.mp hq)
      · intro hb
        exact ⟨(md5_hash b, b), hperm.mem_iff.mpr ((hmem b).mpr hb), rfl⟩
    simp only [List.count_append]
    by_cases hb : b ∈ s.shared_log
    · rw [if_pos hb]
      have h1 := List.count_eq_one_of_mem hmapnodup (hmemmap.mpr hb)
      simp [h1]
    · rw [if_neg hb]
      have h0 := List.count_eq_zero.mpr (fun hc => hb (hmemmap.mp hc))
      simp [h0]

/-- Claim C6: in a successful encode, a shared-string blob referenced at
least once during the walk (ghost log membership) contributes exactly one
dictionary entry to the output — keyed by its content hash — no matter
how many properties referenced it; an unreferenced blob contributes none;
and when no shared string was referenced at all, no dictionary entry and
no `SharedStrings` block appears in the output. -/
theorem c6_shared_string_dedup
    (db : ReflectionDatabase) (rfuel : Nat)
    (iterOrder : List (List Nat × List Nat) → List (List Nat × List Nat))
    (tree : RbxTree) (ids : List RbxId) (options : EncodeOptions) (fuel : Nat)
    (events : List XmlEvent) (s : EmitState)
    (hio : ∀ l, (iterOrder l).Perm l)
    (henc : encode_internal db rfuel iterOrder tree ids options fuel =
      .ok (events, s)) :
    (∀ b, b ∈ s.shared_log →
      events.count (XmlEvent.sharedStringEntry (md5_hash b) b) = 1)
    ∧ (∀ b, b ∉ s.shared_log →
      events.count (XmlEvent.sharedStringEntry (md5_hash b) b) = 0)
    ∧ (s.shared_log = [] →
      (∀ hsh d, XmlEvent.sharedStringEntry hsh d ∉ events) ∧
      (∀ attrs, XmlEvent.startElement "SharedStrings" attrs ∉ events)) := by
  obtain ⟨hinv, evRoots, hnoDict, hevents⟩ := encode_internal_good henc
  have hcount : ∀ b,
      events.count (XmlEvent.sharedStringEntry (md5_hash b) b) =
        if b ∈ s.shared_log then 1 else 0 := by
    intro b
    rw [hevents]
    simp only [List.count_append]
    rw [dict_count iterOrder s hio hinv.2 b]
    have h1 : ([XmlEvent.startElement "roblox" [("version", "4")]] :
        List XmlEvent).count (XmlEvent.sharedStringEntry (md5_hash b) b) = 0 := by
      simp
    have h2 : evRoots.count (XmlEvent.sharedStringEntry (md5_hash b) b) = 0 :=
      List.count_eq_zero.mpr (hnoDict.1 _ _)
    have h3 : ([XmlEvent.endElement] : List XmlEvent).count
        (XmlEvent.sharedStringEntry (md5_hash b) b) = 0 := by simp
    rw [h1, h2, h3]
    omega
  refine ⟨fun b hb => by rw [hcount b, if_pos hb],
    fun b hb => by rw [hcount b, if_neg hb], ?_⟩
  intro hlog
  have hm : s.shared_strings_to_emit = [] := by
    rw [List.eq_nil_iff_forall_not_mem]
    intro p hp
    have hk := hinv.2.2.1 p hp
    have : (md5_hash p.2, p.2) ∈ s.shared_strings_to_emit := by
      rw [← hk]
      exact hp
    have := (hinv.2.2.2 p.2).mp this
    rw [hlog] at this
    cases this
  have hdict : (serialize_shared_strings iterOrder s).1 = [] := by
    rw [serialize_shared_strings, hm]
  rw [hevents, hdict]
  constructor
  · intro hsh d hc
    rcases List.mem_append.mp hc with hc | hc
    · rcases List.mem_append.mp hc with hc | hc
      · rcases List.mem_append.mp hc with hc | hc
        · simp at hc
        · exact hnoDict.1 hsh d hc
      · simp at hc
    · simp at hc
  · intro attrs hc
    rcases List.mem_append.mp hc with hc | hc
    · rcases List.mem_append.mp hc with hc | hc
      · rcases List.mem_append.mp hc with hc | hc
        · simp at hc
        · exact hnoDict.2 attrs hc
      · simp at hc
    · simp at hc

/-- Tree for the dedup witness: two properties referencing the same
shared-string blob `[9]`. -/
def exTreeC6 : RbxTree :=
  { instances :=
      [(0, { class_name := "Folder", name := "F",
             properties := [("B", .sharedString [9]), ("A", .sharedString [9])],
             children := [] })] }

/-- The events of encoding `exTreeC6`: the blob appears once in the
dictionary although referenced twice. -/
def exC6Events : List XmlEvent :=
  [XmlEvent.startElement "roblox" [("version", "4")],
   XmlEvent.startElement "Item" [("class", "Folder"), ("referent", "0")],
   XmlEvent.startElement "Properties" [],
   XmlEvent.propValue "string" "Name" (RbxValue.string "F"),
   XmlEvent.propShared "A" [9],
   XmlEvent.propShared "B" [9],
   XmlEvent.endElement,
   XmlEvent.endElement,
   XmlEvent.startElement "SharedStrings" [],
   XmlEvent.sharedStringEntry [9] [9],
   XmlEvent.endElement,
   XmlEvent.endElement]

/-- The final emit state of that encode: the blob was logged twice but
stored once. -/
def exC6State : EmitState :=
  { options := exOptsNR
    referent_map := [(0, 0)]
    next_referent := 1
    shared_strings_to_emit := [([9], [9])]
    ref_log := [0]
    shared_log := [[9], [9]] }

/-- Witness for C6 at a concrete input. -/
theorem c6_witness :
    (∀ l : List (List Nat × List Nat), ((fun l => l) l).Perm l)
    ∧ encode_internal exUnrepDb 1 (fun l => l) exTreeC6 [0] exOptsNR 1 =
        .ok (exC6Events, exC6State)
    ∧ [9] ∈ exC6State.shared_log
    ∧ exC6Events.count (XmlEvent.sharedStringEntry (md5_hash [9]) [9]) = 1 :=
  ⟨fun l => List.Perm.refl l, by decide, by decide,
    (c6_shared_string_dedup exUnrepDb 1 (fun l => l) exTreeC6 [0] exOptsNR 1
      exC6Events exC6State (fun l => List.Perm.refl l) (by decide)).1 [9]
      (by decide)⟩

/-! ## Sorted property emission (C9) -/

/-- Sortedness by the lexicographic property-name key. -/
def KeySorted (l : List (PropName × RbxValue)) : Prop :=
  List.Pairwise (fun a b => nameKey a.1 ≤ nameKey b.1) l

lemma insertSorted_perm (p : PropName × RbxValue) :
    ∀ l : List (PropName × RbxValue), (insertSorted p l).Perm (p :: l) := by
  intro l
  induction l with
  | nil => exact List.Perm.refl _
  | cons q rest ih =>
    rw [insertSorted]
    split
    · exact List.Perm.refl _
    · exact (ih.cons q).trans (List.Perm.swap p q rest)

lemma sortProps_perm (l : List (PropName × RbxValue)) : (sortProps l).Perm l := by
  induction l with
  | nil => exact List.Perm.refl _
  | cons p rest ih =>
    rw [sortProps]
    exact (insertSorted_perm p (sortProps rest)).trans (ih.cons p)

lemma insertSorted_sorted (p : PropName × RbxValue) :
    ∀ l : List (PropName × RbxValue), KeySorted l → KeySorted (insertSorted p l) := by
  intro l
  induction l with
  | nil => intro _; exact List.pairwise_singleton _ _
  | cons q rest ih =>
    intro h
    obtain ⟨hq, hrest⟩ := List.pairwise_cons.mp h
    rw [insertSorted]
    split
    · next hle =>
      refine List.Pairwise.cons ?_ h
      intro x hx
      rcases List.mem_cons.mp hx with rfl | hx
      · exact hle
      · exact le_trans hle (hq x hx)
    · next hgt =>
      have hqp : nameKey q.1 ≤ nameKey p.1 :=
        (le_total (nameKey p.1) (nameKey q.1)).resolve_left hgt
      refine List.Pairwise.cons ?_ (ih hrest)
      intro x hx
      rcases List.mem_cons.mp ((insertSorted_perm p rest).mem_iff.mp hx) with rfl | hx
      · exact hqp
      · exact hq x hx

lemma sortProps_sorted (l : List (PropName × RbxValue)) : KeySorted (sortProps l) := by
  induction l with
  | nil => exact List.Pairwise.nil
  | cons p rest ih =>
    rw [sortProps]
    exact insertSorted_sorted p (sortProps rest) ih

lemma nameKey_injective : Function.Injective nameKey := by
  intro a b h
  have hchar : Function.Injective Char.toNat := by
    intro c d hcd
    have hval : c.val.toNat = d.val.toNat := hcd
    exact Char.ext (UInt32.ext hval)
  have hdata : a.data = b.data := List.map_injective_iff.mpr hchar h
  exact String.ext hdata

/-- Two key-sorted lists with the same elements and duplicate-free keys
are equal. -/
lemma keySorted_eq_of_perm :
    ∀ {l1 l2 : List (PropName × RbxValue)}, l1.Perm l2 →
      KeySorted l1 → KeySorted l2 → (l1.map Prod.fst).Nodup → l1 = l2 := by
  intro l1
  induction l1 with
  | nil =>
    intro l2 hp _ _ _
    exact (hp.symm.eq_nil).symm ▸ rfl
  | cons a t1 ih =>
    intro l2 hp hs1 hs2 hnd
    cases l2 with
    | nil => cases hp.eq_nil
    | cons b t2 =>
      obtain ⟨ha1, ht1⟩ := List.pairwise_cons.mp hs1
      obtain ⟨hb1, ht2⟩ := List.pairwise_cons.mp hs2
      rw [List.map_cons] at hnd
      obtain ⟨hkey, hndt⟩ := List.nodup_cons.mp hnd
      have hab : a = b := by
        have hbmem : b ∈ a :: t1 := hp.symm.subset (List.mem_cons_self b t2)
        have hamem : a ∈ b :: t2 := hp.subset (List.mem_cons_self a t1)
        have hle1 : nameKey a.1 ≤ nameKey b.1 := by
          rcases List.mem_cons.mp hbmem with rfl | hb
          · exact le_refl _
          · exact ha1 b hb
        have hle2 : nameKey b.1 ≤ nameKey a.1 := by
          rcases List.mem_cons.mp hamem with rfl | hamem2
          · exact le_refl _
          · exact hb1 a hamem2
        have hkeq : a.1 = b.1 := nameKey_injective (le_antisymm hle1 hle2)
        rcases List.mem_cons.mp hbmem with rfl | hb
        · rfl
        · rw [hkeq] at hkey
          exact absurd (List.mem_map.mpr ⟨b, hb, rfl⟩) hkey
      subst hab
      have hp2 : t1.Perm t2 := hp.cons_inv
      rw [ih hp2 ht1 ht2 hndt]

/-- Equal storage contents (up to permutation, with duplicate-free keys)
sort identically. -/
lemma sortProps_eq_of_perm {ps1 ps2 : List (PropName × RbxValue)}
    (hperm : ps1.Perm ps2) (hnd : (ps2.map Prod.fst).Nodup) :
    sortProps ps1 = sortProps ps2 := by
  have h1 := sortProps_perm ps1
  have h2 := sortProps_perm ps2
  have hp : (sortProps ps1).Perm (sortProps ps2) := (h1.trans hperm).trans h2.symm
  have hnd1 : ((sortProps ps1).map Prod.fst).Nodup := by
    have : (sortProps ps1).Perm ps2 := h1.trans hperm
    exact (this.map Prod.fst).nodup_iff.mpr hnd
  exact keySorted_eq_of_perm hp (sortProps_sorted ps1) (sortProps_sorted ps2) hnd1

/-- Instances equal in everything the serializer reads: class, name,
children, and property contents up to storage order. -/
def InstSimilar (i1 i2 : RbxInstance) : Prop :=
  i1.class_name = i2.class_name ∧ i1.name = i2.name ∧
  sortProps i1.properties = sortProps i2.properties ∧ i1.children = i2.children

/-- Trees with pointwise similar instances. -/
def TreeSimilar (t1 t2 : RbxTree) : Prop :=
  ∀ j, (t1.get_instance j = none ∧ t2.get_instance j = none) ∨
    (∃ i1 i2, t1.get_instance j = some i1 ∧ t2.get_instance j = some i2 ∧
      InstSimilar i1 i2)

lemma serialize_children_congr
    {f1 f2 : EmitState → RbxId → EncResult (List XmlEvent × EmitState)}
    (h : ∀ s i, f1 s i = f2 s i) :
    ∀ (l : List RbxId) (state : EmitState),
      serialize_children f1 state l = serialize_children f2 state l := by
  intro l
  induction l with
  | nil => intro state; rfl
  | cons i rest ih =>
    intro state
    rw [serialize_children, serialize_children, h state i]
    cases f2 state i with
    | ok a =>
      obtain ⟨ev1, s1⟩ := a
      simp only [ih s1]
    | err e => rfl
    | panicked => rfl
    | outOfFuel => rfl

lemma serialize_instance_congr (db : ReflectionDatabase) (rfuel : Nat)
    {t1 t2 : RbxTree} (hsim : TreeSimilar t1 t2) :
    ∀ (fuel : Nat) (state : EmitState) (i : RbxId),
      serialize_instance db rfuel t1 fuel state i =
      serialize_instance db rfuel t2 fuel state i := by
  intro fuel
  induction fuel with
  | zero => intro state i; rfl
  | succ fuel ih =>
    intro state i
    rw [serialize_instance, serialize_instance]
    rcases hsim i with ⟨h1, h2⟩ | ⟨i1, i2, h1, h2, hcls, hname, hprops, hch⟩
    · rw [h1, h2]
    · rw [h1, h2]
      have hcongr := @serialize_children_congr
        (fun s j => serialize_instance db rfuel t1 fuel s j)
        (fun s j => serialize_instance db rfuel t2 fuel s j)
        (fun s j => ih s j) i2.children
      simp only [hcls, hname, hprops, hch, hcongr]

lemma encode_internal_congr (db : ReflectionDatabase) (rfuel : Nat)
    (iterOrder : List (List Nat × List Nat) → List (List Nat × List Nat))
    {t1 t2 : RbxTree} (hsim : TreeSimilar t1 t2)
    (ids : List RbxId) (options : EncodeOptions) (fuel : Nat) :
    encode_internal db rfuel iterOrder t1 ids options fuel =
    encode_internal db rfuel iterOrder t2 ids options fuel := by
  have hcongr := @serialize_children_congr
    (fun s j => serialize_instance db rfuel t1 fuel s j)
    (fun s j => serialize_instance db rfuel t2 fuel s j)
    (fun s j => serialize_instance_congr db rfuel hsim fuel s j) ids
  rw [encode_internal, encode_internal, hcongr]

/-- Claim C9: inside an instance's properties block the encoder first
writes `Name` straight from the node's name field (one `write_value_xml`
call on the string value, no resolver involved), then processes the
stored properties as `sortProps` of the stored list — a key-sorted
permutation of it — and the whole encoder output is invariant under
permuting the stored property order (duplicate-free keys). -/
theorem c9_name_first_sorted_emission
    (db : ReflectionDatabase) (rfuel : Nat) (tree tree2 : RbxTree) (i : RbxId)
    (inst : RbxInstance) (ps2 : List (PropName × RbxValue))
    (fuel : Nat) (state : EmitState)
    (hinst : tree.get_instance i = some inst)
    (hnd : (inst.properties.map Prod.fst).Nodup)
    (hperm : ps2.Perm inst.properties)
    (ht2a : tree2.get_instance i = some { inst with properties := ps2 })
    (ht2b : ∀ j, j ≠ i → tree2.get_instance j = tree.get_instance j) :
    KeySorted (sortProps inst.properties)
    ∧ (sortProps inst.properties).Perm inst.properties
    ∧ (∀ fuel2 state2 j, serialize_instance db rfuel tree2 fuel2 state2 j =
        serialize_instance db rfuel tree fuel2 state2 j)
    ∧ (∀ ev s2, serialize_instance db rfuel tree (fuel + 1) state i = .ok (ev, s2) →
        ∃ evProps sP evC,
          serialize_properties db rfuel inst.class_name
            (write_value_xml (state.map_id i).2 "Name"
              (RbxValue.string inst.name)).2
            (sortProps inst.properties) = .ok (evProps, sP)
          ∧ serialize_children
              (fun s j => serialize_instance db rfuel tree fuel s j) sP
              inst.children = .ok (evC, s2)
          ∧ ev = [XmlEvent.startElement "Item"
                    [("class", inst.class_name),
                     ("referent", toString (state.map_id i).1)],
                  XmlEvent.startElement "Properties" []] ++
                 (write_value_xml (state.map_id i).2 "Name"
                   (RbxValue.string inst.name)).1 ++
                 evProps ++ [XmlEvent.endElement] ++ evC ++
                 [XmlEvent.endElement]) := by
  have hsim : TreeSimilar tree2 tree := by
    intro j
    by_cases hj : j = i
    · subst hj
      exact Or.inr ⟨{ inst with properties := ps2 }, inst, ht2a, hinst,
        rfl, rfl, sortProps_eq_of_perm hperm hnd, rfl⟩
    · rw [ht2b j hj]
      cases htj : tree.get_instance j with
      | none => exact Or.inl ⟨rfl, rfl⟩
      | some i1 => exact Or.inr ⟨i1, i1, rfl, rfl, rfl, rfl, rfl, rfl⟩
  refine ⟨sortProps_sorted _, sortProps_perm _,
    fun fuel2 state2 j => serialize_instance_congr db rfuel hsim fuel2 state2 j,
    ?_⟩
  intro ev s2 h
  rw [serialize_instance] at h
  simp only [hinst] at h
  split at h
  · next evP sP heqP =>
    split at h
    · next evC sC heqC =>
      cases h
      exact ⟨evP, sP, evC, heqP, heqC, rfl⟩
    · cases h
    · cases h
    · cases h
  · cases h
  · cases h
  · cases h

/-- Tree for the sorted-emission witness: properties stored out of
order. -/
def exTreeC9 : RbxTree :=
  { instances :=
      [(0, { class_name := "Folder", name := "F",
             properties := [("B", .bool true), ("A", .bool false)],
             children := [] })] }

/-- The same tree with the property storage order permuted. -/
def exTreeC9b : RbxTree :=
  { instances :=
      [(0, { class_name := "Folder", name := "F",
             properties := [("A", .bool false), ("B", .bool true)],
             children := [] })] }

/-- The instance stored at id 0 of `exTreeC9`. -/
def exInstC9 : RbxInstance :=
  { class_name := "Folder", name := "F",
    properties := [("B", .bool true), ("A", .bool false)], children := [] }

/-- Witness for C9 at a concrete input. -/
theorem c9_witness :
    exTreeC9.get_instance 0 = some exInstC9
    ∧ (exInstC9.properties.map Prod.fst).Nodup
    ∧ ([("A", RbxValue.bool false), ("B", RbxValue.bool true)] :
        List (PropName × RbxValue)).Perm exInstC9.properties
    ∧ exTreeC9b.get_instance 0 =
        some { exInstC9 with
                 properties := [("A", RbxValue.bool false), ("B", RbxValue.bool true)] }
    ∧ (KeySorted (sortProps exInstC9.properties)
      ∧ (sortProps exInstC9.properties).Perm exInstC9.properties
      ∧ (∀ fuel2 state2 j,
          serialize_instance exUnrepDb 1 exTreeC9b fuel2 state2 j =
          serialize_instance exUnrepDb 1 exTreeC9 fuel2 state2 j)
      ∧ (∀ ev s2,
          serialize_instance exUnrepDb 1 exTreeC9 1 exStateIgnore 0 = .ok (ev, s2) →
          ∃ evProps sP evC,
            serialize_properties exUnrepDb 1 exInstC9.class_name
              (write_value_xml (exStateIgnore.map_id 0).2 "Name"
                (RbxValue.string exInstC9.name)).2
              (sortProps exInstC9.properties) = .ok (evProps, sP)
            ∧ serialize_children
                (fun s j => serialize_instance exUnrepDb 1 exTreeC9 0 s j) sP
                exInstC9.children = .ok (evC, s2)
            ∧ ev = [XmlEvent.startElement "Item"
                      [("class", exInstC9.class_name),
                       ("referent", toString (exStateIgnore.map_id 0).1)],
                    XmlEvent.startElement "Properties" []] ++
                   (write_value_xml (exStateIgnore.map_id 0).2 "Name"
                     (RbxValue.string exInstC9.name)).1 ++
                   evProps ++ [XmlEvent.endElement] ++ evC ++
                   [XmlEvent.endElement])) :=
  ⟨by decide, by decide, by decide, by decide,
    c9_name_first_sorted_emission exUnrepDb 1 exTreeC9 exTreeC9b 0 exInstC9
      [("A", RbxValue.bool false), ("B", RbxValue.bool true)] 0 exStateIgnore
      (by decide) (by decide) (by decide) (by decide)
      (by
        intro j hj
        simp [exTreeC9, exTreeC9b, RbxTree.get_instance, List.find?,
          Ne.symm hj])⟩

/-- Tree for the determinism counterexample: two properties referencing
two distinct shared-string blobs. -/
def exTreeC1 : RbxTree :=
  { instances :=
      [(0, { class_name := "Folder", name := "F",
             properties := [("A", .sharedString [1]), ("B", .sharedString [2])],
             children := [] })] }

/-- Claim C1 is false on the code: `serialize_shared_strings` iterates the
`values()` of a Rust `HashMap`, whose iteration order is unspecified and
differs between the fresh maps of two encode calls.  With two distinct
blobs in the dictionary, two admissible iteration orders (both
permutations of the stored entries — here the identity and the reversal)
produce different byte streams for the same tree, roots and options, so
encoding the same input twice is not guaranteed byte-identical. -/
theorem c1_sharedstring_order_nondeterminism :
    (∀ l : List (List Nat × List Nat), ((fun l => l) l).Perm l)
    ∧ (∀ l : List (List Nat × List Nat), l.reverse.Perm l)
    ∧ encode_internal exUnrepDb 1 (fun l => l) exTreeC1 [0] exOptsNR 1 ≠
      encode_internal exUnrepDb 1 List.reverse exTreeC1 [0] exOptsNR 1 :=
  ⟨fun l => List.Perm.refl l, fun l => List.reverse_perm l, by decide⟩
